import Mathlib

/-!
Shallow embedding of the std430-style SSBO layout resolver of
`src/DynamicSSBO.hpp` / `src/DynamicSSBO.cpp`.

Conventions of the embedding:
* `std::size_t` is modelled as `Nat` (all quantities are non-negative byte
  counts; no arithmetic in the resolver can overflow at the sizes involved,
  and the source performs no wrapping arithmetic).
* `wt::Assert` failures and undefined behaviour (dereferencing
  `std::prev(v.end())` of an empty vector, `DataTypeSizeInBytes` on
  `DataType::None`) are modelled as `Option.none` / `Except.error`.
* The C++ element classes (`ScalarElement`, `StructElement`, `ArrayElement`)
  become the constructors of an inductive type; dynamic dispatch on
  `GetElementType()` becomes pattern matching on the constructor.
-/

/-- `enum class DataType` of `src/DynamicSSBO.hpp`. -/
inductive DataType where
  | UInt32
  | Vec2f
  | Vec2ui
  | Vec4f
  | Vec4ui
  | Mat4f
  | Array
  | Struct
  | None
deriving DecidableEq, Repr

/-- `DataTypeSizeInBytes` of `src/DynamicSSBO.hpp`: sizes 4, 8, 8, 16, 16, 64
for the scalar tags, 0 for the structural tags `Array` and `Struct`; the
`default` branch (reached for `None`) asserts and `__debugbreak`s, modelled as
`none`. -/
def DataTypeSizeInBytes : DataType → Option Nat
  | .UInt32 => some 4
  | .Vec2f => some 8
  | .Vec2ui => some 8
  | .Vec4f => some 16
  | .Vec4ui => some 16
  | .Mat4f => some 64
  | .Array => some 0
  | .Struct => some 0
  | .None => none

/-- The state of a not-yet-resolved element (the element tree built through
`RawLayout::Add`, `StructElement::Add`, `ArrayElement::SetArray` and
`ArrayElement::SetCustomArrayType`):
* `scalar t` is a `ScalarElement` with `_elementType = t`;
* `structE ms` is a `StructElement` with `_structElements = ms`;
* `arrayE t n proto` is an `ArrayElement` with `_arrayElementType = t` and
  `_arrayElementCount = n`; for an array of structs (`t = .Struct`), `proto`
  is the member list of the prototype `StructElement` stored as
  `_arrayElements[0]` by `SetCustomArrayType`; otherwise `proto = []`.
  (A freshly constructed `ArrayElement` has `t = .None`; its count field,
  `size_t(-1)` in the source, is never read before the `.None` type makes
  resolution fail, so its modelled value is irrelevant and taken to be 0.) -/
inductive RawElement where
  | scalar (type : DataType)
  | structE (members : List (String × RawElement))
  | arrayE (elemType : DataType) (count : Nat) (proto : List (String × RawElement))

/-- `IElement::GetElementType`: a `ScalarElement` reports its scalar tag, a
`StructElement` reports `Struct`, an `ArrayElement` reports `Array`. -/
def elementTypeOf : RawElement → DataType
  | .scalar t => t
  | .structE _ => .Struct
  | .arrayE _ _ _ => .Array

/-- The element constructed by `RawLayout::Add(dataType, name)` /
`StructElement::Add(dataType, name)` for a given tag: a fresh empty
`StructElement` for `Struct`, a fresh untyped `ArrayElement` for `Array`
(this one line is the reason `src/DynamicSSBO.cpp` exists), and a
`ScalarElement` otherwise. -/
def rawElementOfType : DataType → RawElement
  | .Struct => .structE []
  | .Array => .arrayE .None 0 []
  | t => .scalar t

/-- The copy the resolver makes of a nested member when it rebuilds a raw
layout by `rawStructLayout.Add(structElement->GetElementType(), name)`
(`src/DynamicSSBO.hpp` lines 891-894 and 959-962): only the type tag
survives, so the children of a nested struct or array member are lost. -/
def copyByType (e : RawElement) : RawElement :=
  rawElementOfType (elementTypeOf e)

/-- A resolved element (the state of an `IElement` after
`SSBOLayout::CreateLayout` has run): every constructor carries the resolved
`_offset` and `_sizeInBytes`; a struct carries its named `_structElements`, an
array its anonymous `_arrayElements`. -/
inductive RElement where
  | scalar (type : DataType) (offset : Nat) (sizeInBytes : Nat)
  | structE (offset : Nat) (sizeInBytes : Nat) (members : List (String × RElement))
  | arrayE (offset : Nat) (sizeInBytes : Nat) (slots : List RElement)

/-- `IElement::GetOffset`. -/
def RElement.GetOffset : RElement → Nat
  | .scalar _ off _ => off
  | .structE off _ _ => off
  | .arrayE off _ _ => off

/-- `IElement::GetSizeInBytes`. -/
def RElement.GetSizeInBytes : RElement → Nat
  | .scalar _ _ s => s
  | .structE _ s _ => s
  | .arrayE _ s _ => s

/-- End of an element's stored byte range, `GetOffset() + GetSizeInBytes()`. -/
def rangeEnd (e : RElement) : Nat :=
  e.GetOffset + e.GetSizeInBytes

/-- Member list of a resolved struct (empty for other kinds). -/
def RElement.memberList : RElement → List (String × RElement)
  | .structE _ _ ms => ms
  | _ => []

/-- Slot list of a resolved array (empty for other kinds). -/
def RElement.slotList : RElement → List RElement
  | .arrayE _ _ slots => slots
  | _ => []

/-- `SSBOLayout::CalculateBoundaryOffset`: `offset + (16 - offset % 16) % 16`. -/
def CalculateBoundaryOffset (offset : Nat) : Nat :=
  offset + (16 - offset % 16) % 16

/-- `SSBOLayout::CrossesBoundary`: the element crosses if
`offset + sizeInBytes > CalculateBoundaryOffset offset`. -/
def CrossesBoundary (offset sizeInBytes : Nat) : Bool :=
  decide (offset + sizeInBytes > CalculateBoundaryOffset offset)

/-- `SSBOLayout::GetCorrectOffset`: the boundary offset when the element
crosses a 16-byte boundary, the unchanged offset otherwise. -/
def GetCorrectOffset (offset sizeInBytes : Nat) : Nat :=
  if CrossesBoundary offset sizeInBytes then CalculateBoundaryOffset offset
  else offset

mutual

/-- Termination measure for `CreateLayout`: a weight on raw elements
dominating the weight of every synthetic raw layout the resolver builds. -/
def weight : RawElement → Nat
  | .scalar _ => 3
  | .structE ms => 2 + weightList ms
  | .arrayE _ n proto => 2 + n * (3 + weightList proto)

/-- Sum of `weight` over a named element list. -/
def weightList : List (String × RawElement) → Nat
  | [] => 0
  | p :: rest => weight p.2 + weightList rest

end

theorem weight_pos (e : RawElement) : 1 ≤ weight e := by
  cases e <;> simp [weight] <;> omega

theorem weightList_cons (p : String × RawElement) (l : List (String × RawElement)) :
    weightList (p :: l) = weight p.2 + weightList l := rfl

theorem weightList_append (l₁ l₂ : List (String × RawElement)) :
    weightList (l₁ ++ l₂) = weightList l₁ + weightList l₂ := by
  induction l₁ with
  | nil => simp [weightList]
  | cons p rest ih => simp [weightList, ih]; omega

theorem weight_rawElementOfType_le (t : DataType) : weight (rawElementOfType t) ≤ 3 := by
  cases t <;> simp [rawElementOfType, weight, weightList]

theorem weight_copyByType_le (e : RawElement) : weight (copyByType e) ≤ weight e := by
  cases e with
  | scalar t =>
      cases t <;> simp [copyByType, elementTypeOf, rawElementOfType, weight, weightList]
  | structE ms => simp [copyByType, elementTypeOf, rawElementOfType, weight, weightList]
  | arrayE t n proto =>
      simp [copyByType, elementTypeOf, rawElementOfType, weight, weightList]

theorem weightList_map_copy_le (ms : List (String × RawElement)) :
    weightList (ms.map (fun p => (p.1, copyByType p.2))) ≤ weightList ms := by
  induction ms with
  | nil => simp [weightList]
  | cons p rest ih =>
      simp only [List.map_cons, weightList_cons]
      have := weight_copyByType_le p.2
      omega

theorem weightList_range_map (n : Nat) (f : Nat → String) (e0 : RawElement) :
    weightList ((List.range n).map (fun i => (f i, e0))) = n * weight e0 := by
  induction n with
  | zero => simp [weightList]
  | succ m ih =>
      rw [List.range_succ, List.map_append, weightList_append, ih]
      simp [weightList]
      ring

theorem dec_struct_raw (ms rest : List (String × RawElement)) :
    weightList (ms.map (fun p => (p.1, copyByType p.2))) <
      weight (RawElement.structE ms) + weightList rest := by
  have h := weightList_map_copy_le ms
  have h2 : weight (RawElement.structE ms) = 2 + weightList ms := rfl
  omega

theorem dec_synth_scalar (t : DataType) (n : Nat) (proto rest : List (String × RawElement))
    (f : Nat → String) :
    weightList ((List.range n).map (fun i => (f i, rawElementOfType t))) <
      weight (RawElement.arrayE t n proto) + weightList rest := by
  rw [weightList_range_map]
  have h1 := weight_rawElementOfType_le t
  have h2 : weight (RawElement.arrayE t n proto) = 2 + n * (3 + weightList proto) := rfl
  have h3 : n * weight (rawElementOfType t) ≤ n * 3 := Nat.mul_le_mul_left n h1
  have h4 : n * 3 ≤ n * (3 + weightList proto) := Nat.mul_le_mul_left n (by omega)
  omega

theorem dec_synth_struct (t : DataType) (n : Nat) (proto rest : List (String × RawElement))
    (f : Nat → String) :
    weightList ((List.range n).map
        (fun i => (f i, RawElement.structE (proto.map (fun p => (p.1, copyByType p.2)))))) <
      weight (RawElement.arrayE t n proto) + weightList rest := by
  rw [weightList_range_map]
  have h1 := weightList_map_copy_le proto
  have h2 : weight (RawElement.structE (proto.map (fun p => (p.1, copyByType p.2)))) =
      2 + weightList (proto.map (fun p => (p.1, copyByType p.2))) := rfl
  have h3 : weight (RawElement.arrayE t n proto) = 2 + n * (3 + weightList proto) := rfl
  have h4 : n * weight (RawElement.structE (proto.map (fun p => (p.1, copyByType p.2)))) ≤
      n * (2 + weightList proto) := by
    apply Nat.mul_le_mul_left
    omega
  have h5 : n * (2 + weightList proto) + n = n * (3 + weightList proto) := by ring
  omega

theorem dec_tail (e : RawElement) (rest : List (String × RawElement)) :
    weightList rest < weight e + weightList rest := by
  have := weight_pos e
  omega

/-- `SSBOLayout::CreateLayout` (`src/DynamicSSBO.hpp` lines 858-1012): walks
the raw layout in declaration order threading the running byte cursor
`currentOffset`, and produces the resolved element list.

* Array of structs: builds a synthetic raw layout of `count` structs named
  `"[i]"`, each of whose members is re-added from the prototype by type tag
  only (`copyByType`), resolves it at the current cursor, stores the resolved
  slots in `_arrayElements`, and advances the cursor to the last slot's end.
  The array's own `_offset`/`_sizeInBytes` are never assigned and keep the
  constructor defaults `0` and `DataTypeSizeInBytes(Array) = 0`.
* Array of scalars: `_offset = GetCorrectOffset(cursor, stride)`,
  `_sizeInBytes = stride * count`; slots come from resolving a synthetic raw
  layout of `count` elements of the array's element type (built through the
  `Add(tag, name)` dispatch, hence `rawElementOfType`) at the current cursor;
  the cursor advances to `lastSlot.offset + stride`.
* Struct: the member list is re-added by type tag only (`copyByType`),
  resolved once at cursor 0 to learn `structSize`, the struct is placed at
  `GetCorrectOffset(cursor, structSize)`, the members are resolved again at
  that placement, and the cursor advances to the last member's end.
* Scalar: placed at `GetCorrectOffset(cursor, size)`; cursor advances past it.

`std::prev(v.end())` of an empty `v` and `DataTypeSizeInBytes(None)` are
failures (`none`). -/
def CreateLayout : List (String × RawElement) → Nat → Option (List (String × RElement))
  | [], _ => some []
  | (name, RawElement.scalar t) :: rest, currentOffset =>
    match DataTypeSizeInBytes t with
    | none => none
    | some sizeInBytes =>
      let off := GetCorrectOffset currentOffset sizeInBytes
      match CreateLayout rest (off + sizeInBytes) with
      | none => none
      | some restRes => some ((name, RElement.scalar t off sizeInBytes) :: restRes)
  | (name, RawElement.structE ms) :: rest, currentOffset =>
    let rawStructLayout := ms.map (fun p => (p.1, copyByType p.2))
    match CreateLayout rawStructLayout 0 with
    | none => none
    | some structLayoutInitial =>
      match structLayoutInitial.getLast? with
      | none => none
      | some lastInit =>
        let structSize := lastInit.2.GetOffset + lastInit.2.GetSizeInBytes
        let off := GetCorrectOffset currentOffset structSize
        match CreateLayout rawStructLayout off with
        | none => none
        | some structLayoutFinal =>
          match structLayoutFinal.getLast? with
          | none => none
          | some lastFinal =>
            let nextOffset := lastFinal.2.GetOffset + lastFinal.2.GetSizeInBytes
            match CreateLayout rest nextOffset with
            | none => none
            | some restRes =>
              some ((name, RElement.structE off structSize structLayoutFinal) :: restRes)
  | (name, RawElement.arrayE t n proto) :: rest, currentOffset =>
    if t = DataType.Struct then
      let rawArrayStructLayout :=
        (List.range n).map
          (fun i => ("[" ++ toString i ++ "]",
            RawElement.structE (proto.map (fun p => (p.1, copyByType p.2)))))
      match CreateLayout rawArrayStructLayout currentOffset with
      | none => none
      | some arrayStructLayout =>
        match arrayStructLayout.getLast? with
        | none => none
        | some lastSlot =>
          let nextOffset := lastSlot.2.GetOffset + lastSlot.2.GetSizeInBytes
          match CreateLayout rest nextOffset with
          | none => none
          | some restRes =>
            some ((name, RElement.arrayE 0 0 (arrayStructLayout.map Prod.snd)) :: restRes)
    else
      match DataTypeSizeInBytes t with
      | none => none
      | some stride =>
        let off := GetCorrectOffset currentOffset stride
        let sizeInBytes := stride * n
        let rawArrayLayout :=
          (List.range n).map (fun i => ("[" ++ toString i ++ "]", rawElementOfType t))
        match CreateLayout rawArrayLayout currentOffset with
        | none => none
        | some arrayLayout =>
          match arrayLayout.getLast? with
          | none => none
          | some lastSlot =>
            let nextOffset := lastSlot.2.GetOffset + stride
            match CreateLayout rest nextOffset with
            | none => none
            | some restRes =>
              some ((name, RElement.arrayE off sizeInBytes (arrayLayout.map Prod.snd)) :: restRes)
termination_by l _ => weightList l
decreasing_by
  all_goals simp only [weightList_cons]
  all_goals first
    | exact dec_struct_raw ms rest
    | exact dec_synth_scalar t n proto rest _
    | exact dec_synth_struct t n proto rest _
    | apply dec_tail

/-- The `SSBOLayout` constructor (`src/DynamicSSBO.hpp` lines 699-719), GL
calls elided: resolve the raw layout at cursor 0, then read the last resolved
element (`layout.back()`, undefined on an empty layout, hence `none`) and set
`_sizeInBytes = endElement.offset + endElement.sizeInBytes`. Returns the
resolved element list together with the layout's total `_sizeInBytes`. -/
def SSBOLayoutCreate (rawLayout : List (String × RawElement)) :
    Option (List (String × RElement) × Nat) :=
  match CreateLayout rawLayout 0 with
  | none => none
  | some layout =>
    match layout.getLast? with
    | none => none
    | some endElement =>
      some (layout, endElement.2.GetOffset + endElement.2.GetSizeInBytes)

/-- The total size reported by `SSBOLayout::GetSizeInBytes`. -/
def SSBOLayoutTotalSize (rawLayout : List (String × RawElement)) : Option Nat :=
  (SSBOLayoutCreate rawLayout).map Prod.snd

/-- The mutable declaration state of an `ArrayElement` that `SetArray`
manipulates: `_arrayElementType` and `_arrayElementCount`. -/
structure ArrayState where
  arrayElementType : DataType
  arrayElementCount : Nat
deriving DecidableEq, Repr

/-- The assertion messages of `ArrayElement::SetArray`, in source order:
`"Invalid array size"`, `"Invalid data type"`, and
`"Invalid type, did you mean to call ArrayElement::SetCustomArrayType()?"`. -/
inductive SetArrayError where
  | InvalidArraySize
  | InvalidDataType
  | InvalidStructType
deriving DecidableEq, Repr

/-- `ArrayElement::SetArray` (`src/DynamicSSBO.hpp` lines 488-507): asserts
`elementCount >= 1`, `arrayType != None`, `arrayType != Struct` (in that
order; the spec treats the assertions as fatal errors, modelled as `Except`),
then overwrites `_arrayElementType` and `_arrayElementCount`.  The prior
state `st` is never inspected: there is no check that the array was already
typed by an earlier call. -/
def SetArray (_st : ArrayState) (arrayType : DataType) (elementCount : Nat) :
    Except SetArrayError ArrayState :=
  if ¬ 1 ≤ elementCount then Except.error SetArrayError.InvalidArraySize
  else if arrayType = DataType.None then Except.error SetArrayError.InvalidDataType
  else if arrayType = DataType.Struct then Except.error SetArrayError.InvalidStructType
  else Except.ok ⟨arrayType, elementCount⟩

/-- `crossesBoundary` as the SPEC states it (spec §4.3, modelled from the
spec's words for comparison against the source's `CrossesBoundary`):
`(offset / 16 ≠ (offset + size) / 16 ∧ (offset + size) % 16 ≠ 0) ∨ size > 16`. -/
def crossesBoundarySpec (offset size : Nat) : Bool :=
  (decide (offset / 16 ≠ (offset + size) / 16) && decide ((offset + size) % 16 ≠ 0))
    || decide (size > 16)

/-- `alignForBoundary` as the SPEC states it (spec §4.3, modelled from the
spec's words): the next multiple of 16 that is ≥ `offset` when
`crossesBoundarySpec`, the unchanged offset otherwise. -/
def alignForBoundarySpec (offset size : Nat) : Nat :=
  if crossesBoundarySpec offset size then offset + (16 - offset % 16) % 16
  else offset

/-- C5: for every offset and element size, the source's placement function
`GetCorrectOffset` (whose crossing test is `offset + size >` the next
boundary at or above `offset`) computes exactly the placement prescribed by
the spec's formal crossing rule
`((offset/16 ≠ (offset+size)/16) ∧ (offset+size) % 16 ≠ 0) ∨ size > 16`:
align up to the next multiple of 16 when crossing, keep the offset otherwise.
The two crossing predicates differ only at 16-aligned offsets, where both
placements coincide with the unchanged offset. -/
theorem claim5_placement_matches_spec_rule (offset size : Nat) :
    GetCorrectOffset offset size = alignForBoundarySpec offset size := by
  unfold GetCorrectOffset alignForBoundarySpec CrossesBoundary crossesBoundarySpec
    CalculateBoundaryOffset
  simp only [decide_eq_true_eq, Bool.or_eq_true, Bool.and_eq_true, gt_iff_lt, ne_eq,
    decide_not, Bool.not_eq_true', decide_eq_false_iff_not]
  split <;> split <;> first | rfl | omega

/-- C9 counterexample: `SetArray` performs no already-typed check.  A first
call on a fresh (untyped) handle records `(UInt32, 2)`; a second call on that
already-typed handle does NOT fail with any error — it succeeds and simply
overwrites the recorded element type and count with `(Vec4f, 3)`. -/
theorem claim9_counterexample :
    SetArray ⟨DataType.None, 0⟩ DataType.UInt32 2 = Except.ok ⟨DataType.UInt32, 2⟩ ∧
    SetArray ⟨DataType.UInt32, 2⟩ DataType.Vec4f 3 = Except.ok ⟨DataType.Vec4f, 3⟩ := by
  exact ⟨rfl, rfl⟩

/-- C9 amended: `SetArray` fails with `InvalidArraySize` when `count < 1`,
with `InvalidDataType` when the tag is `None`, and with `InvalidStructType`
when the tag is `Struct` (pointing the caller at `SetCustomArrayType`);
otherwise — regardless of any earlier call on the same handle — it succeeds
and records the element type and count.  There is no `AlreadyTyped` check. -/
theorem claim9_setarray_checks (st : ArrayState) (t : DataType) (n : Nat) :
    (n < 1 → SetArray st t n = Except.error SetArrayError.InvalidArraySize) ∧
    (1 ≤ n → t = DataType.None →
      SetArray st t n = Except.error SetArrayError.InvalidDataType) ∧
    (1 ≤ n → t ≠ DataType.None → t = DataType.Struct →
      SetArray st t n = Except.error SetArrayError.InvalidStructType) ∧
    (1 ≤ n → t ≠ DataType.None → t ≠ DataType.Struct →
      SetArray st t n = Except.ok ⟨t, n⟩) := by
  refine ⟨?_, ?_, ?_, ?_⟩ <;> intros <;> simp_all [SetArray]

/-- Witness for C9 amended: the validation outcomes at concrete inputs. -/
theorem claim9_witness :
    SetArray ⟨DataType.None, 0⟩ DataType.UInt32 2 = Except.ok ⟨DataType.UInt32, 2⟩ ∧
    SetArray ⟨DataType.None, 0⟩ DataType.UInt32 0 =
      Except.error SetArrayError.InvalidArraySize ∧
    SetArray ⟨DataType.None, 0⟩ DataType.None 4 =
      Except.error SetArrayError.InvalidDataType ∧
    SetArray ⟨DataType.None, 0⟩ DataType.Struct 4 =
      Except.error SetArrayError.InvalidStructType :=
  ⟨(claim9_setarray_checks ⟨DataType.None, 0⟩ DataType.UInt32 2).2.2.2
      (by decide) (by decide) (by decide),
   (claim9_setarray_checks ⟨DataType.None, 0⟩ DataType.UInt32 0).1 (by decide),
   (claim9_setarray_checks ⟨DataType.None, 0⟩ DataType.None 4).2.1 (by decide) rfl,
   (claim9_setarray_checks ⟨DataType.None, 0⟩ DataType.Struct 4).2.2.1
      (by decide) (by decide) rfl⟩

theorem createLayout_cons_ne_nil {nm : String} {e : RawElement}
    {rest : List (String × RawElement)} {c : Nat} {res : List (String × RElement)}
    (h : CreateLayout ((nm, e) :: rest) c = some res) : res ≠ [] := by
  cases e <;> (simp only [CreateLayout] at h; (repeat' split at h)) <;>
    (try cases h) <;> simp

/-- C10: finalization requires a non-empty declaration.  For every
declaration with at least one element whose resolution succeeds, the
constructor's read of the last resolved element is in bounds and the total
size is defined; for the empty declaration the resolver returns an empty
list, the `layout.back()` read has no defined result, and the finalized
layout cannot be constructed. -/
theorem claim10_nonempty_required :
    (∀ decl res, CreateLayout decl 0 = some res → decl ≠ [] →
      (SSBOLayoutTotalSize decl).isSome = true) ∧
    SSBOLayoutCreate [] = none := by
  constructor
  · intro decl res h hne
    have hres : res ≠ [] := by
      cases decl with
      | nil => exact absurd rfl hne
      | cons p rest =>
          obtain ⟨nm, e⟩ := p
          exact createLayout_cons_ne_nil h
    have hsome : res.getLast?.isSome := List.getLast?_isSome.mpr hres
    obtain ⟨x, hx⟩ := Option.isSome_iff_exists.mp hsome
    simp [SSBOLayoutTotalSize, SSBOLayoutCreate, h, hx]
  · simp [SSBOLayoutCreate, CreateLayout]

/-- Witness for C10: a one-element declaration resolves and its finalized
total size is defined. -/
theorem claim10_witness :
    CreateLayout [("x", RawElement.scalar DataType.UInt32)] 0 =
      some [("x", RElement.scalar DataType.UInt32 0 4)] ∧
    (SSBOLayoutTotalSize [("x", RawElement.scalar DataType.UInt32)]).isSome = true := by
  have h : CreateLayout [("x", RawElement.scalar DataType.UInt32)] 0 =
      some [("x", RElement.scalar DataType.UInt32 0 4)] := by
    simp [CreateLayout, GetCorrectOffset, CrossesBoundary, CalculateBoundaryOffset,
      DataTypeSizeInBytes]
  exact ⟨h, claim10_nonempty_required.1 _ _ h (by simp)⟩

/-- A top-level struct whose member `T` is itself a struct with a declared
child `x` (built through `StructElement::Add`, `src/DynamicSSBO.cpp`). -/
def C2declStruct : List (String × RawElement) :=
  [("S", RawElement.structE
    [("T", RawElement.structE [("x", RawElement.scalar DataType.UInt32)])])]

/-- A top-level struct whose member `A` is a declared array of four UInt32
(an `ArrayElement` typed through `SetArray`). -/
def C2declArray : List (String × RawElement) :=
  [("S", RawElement.structE [("A", RawElement.arrayE DataType.UInt32 4 [])])]

/-- C2: the resolver does NOT recursively resolve a nested struct or array
member that has declared children.  When `CreateLayout` rebuilds a struct's
member list it re-adds each member by its type tag only (`copyByType`), so a
nested struct member becomes a fresh empty `StructElement` (whose resolution
then reads the last element of an empty list — `std::prev(end())` of an empty
vector) and a nested array member becomes a fresh untyped `ArrayElement`
(whose resolution calls `DataTypeSizeInBytes(None)`).  Both declarations
therefore fail to resolve at all, and no finalized layout exposing the nested
children exists. -/
theorem claim2_nested_members_lost :
    CreateLayout C2declStruct 0 = none ∧ CreateLayout C2declArray 0 = none := by
  constructor <;>
    simp [C2declStruct, C2declArray, CreateLayout, copyByType, elementTypeOf,
      rawElementOfType, GetCorrectOffset, CrossesBoundary, CalculateBoundaryOffset,
      DataTypeSizeInBytes, RElement.GetOffset, RElement.GetSizeInBytes, List.range_succ]

/-- The declaration of the repo's own test "Array of structs with padding"
(`src/DynamicSSBO.Test.hpp` lines 293-332): a UInt32, an array of five
structs each shaped `{UInt32, Vec4f}`, then a trailing UInt32. -/
def C3decl : List (String × RawElement) :=
  [("u", RawElement.scalar DataType.UInt32),
   ("arr", RawElement.arrayE DataType.Struct 5
     [("x", RawElement.scalar DataType.UInt32), ("y", RawElement.scalar DataType.Vec4f)]),
   ("t", RawElement.scalar DataType.UInt32)]

/-- The resolved slots of `C3decl`'s array: five 32-byte structs at offsets
16, 48, 80, 112, 144. -/
def C3slots : List RElement :=
  [RElement.structE 16 32
     [("x", RElement.scalar DataType.UInt32 16 4), ("y", RElement.scalar DataType.Vec4f 32 16)],
   RElement.structE 48 32
     [("x", RElement.scalar DataType.UInt32 48 4), ("y", RElement.scalar DataType.Vec4f 64 16)],
   RElement.structE 80 32
     [("x", RElement.scalar DataType.UInt32 80 4), ("y", RElement.scalar DataType.Vec4f 96 16)],
   RElement.structE 112 32
     [("x", RElement.scalar DataType.UInt32 112 4), ("y", RElement.scalar DataType.Vec4f 128 16)],
   RElement.structE 144 32
     [("x", RElement.scalar DataType.UInt32 144 4), ("y", RElement.scalar DataType.Vec4f 160 16)]]

/-- C3: in the array-of-structs branch `CreateLayout` never assigns the
array element's own `_offset` and `_sizeInBytes`, which keep the constructor
defaults 0 and `DataTypeSizeInBytes(Array) = 0`.  On the repo's own test
declaration the array's slots start at 16 and their sizes sum to 160, yet
`GetOffset()` returns 0 (the test at `src/DynamicSSBO.Test.hpp:313` expects
16) and `GetSizeInBytes()` returns 0. -/
theorem claim3_struct_array_fields_unset :
    (CreateLayout C3decl 0).map (List.map Prod.snd) =
      some [RElement.scalar DataType.UInt32 0 4,
            RElement.arrayE 0 0 C3slots,
            RElement.scalar DataType.UInt32 176 4] ∧
    (RElement.arrayE 0 0 C3slots).GetOffset = 0 ∧
    (RElement.arrayE 0 0 C3slots).GetSizeInBytes = 0 ∧
    C3slots.head?.map RElement.GetOffset = some 16 ∧
    (C3slots.map RElement.GetSizeInBytes).sum = 160 := by
  refine ⟨?_, rfl, rfl, rfl, rfl⟩
  simp [C3decl, C3slots, CreateLayout, copyByType, elementTypeOf, rawElementOfType,
    GetCorrectOffset, CrossesBoundary, CalculateBoundaryOffset, DataTypeSizeInBytes,
    RElement.GetOffset, RElement.GetSizeInBytes, List.range_succ]

/-- A declaration whose single (hence last) top-level element is an array of
one struct `{UInt32}`. -/
def C4decl : List (String × RawElement) :=
  [("arr", RawElement.arrayE DataType.Struct 1 [("x", RawElement.scalar DataType.UInt32)])]

/-- C4 counterexample: for `C4decl` the finalized layout's total size is 0,
although the last top-level element's byte range computed from its resolved
slots ends at 4 (its single slot is a struct at offset 0 of computed size 4).
The constructor's `offset + sizeInBytes` read uses the array's stored fields,
which the array-of-structs branch left at 0 — not the computed
padding-inclusive size the claim prescribes. -/
theorem claim4_counterexample :
    SSBOLayoutTotalSize C4decl = some 0 ∧
    (CreateLayout C4decl 0).map (List.map Prod.snd) =
      some [RElement.arrayE 0 0
        [RElement.structE 0 4 [("x", RElement.scalar DataType.UInt32 0 4)]]] ∧
    rangeEnd (RElement.structE 0 4 [("x", RElement.scalar DataType.UInt32 0 4)]) = 4 ∧
    (0 : Nat) ≠ 4 := by
  refine ⟨?_, ?_, rfl, by decide⟩ <;>
    simp [C4decl, SSBOLayoutTotalSize, SSBOLayoutCreate, CreateLayout, copyByType,
      elementTypeOf, rawElementOfType, GetCorrectOffset, CrossesBoundary,
      CalculateBoundaryOffset, DataTypeSizeInBytes, RElement.GetOffset,
      RElement.GetSizeInBytes, rangeEnd, List.range_succ]

/-- A UInt32 followed by a two-element Vec2f array: the second slot straddles
a 16-byte page and is re-aligned, so the slots are NOT contiguous. -/
def declUVec2Arr : List (String × RawElement) :=
  [("u", RawElement.scalar DataType.UInt32),
   ("a", RawElement.arrayE DataType.Vec2f 2 [])]

/-- The resolved form of `declUVec2Arr`: the array sits at offset 4 with
stored size `stride * count = 16`, but its slots are at 4 and 16. -/
def declUVec2ArrResolved : List (String × RElement) :=
  [("u", RElement.scalar DataType.UInt32 0 4),
   ("a", RElement.arrayE 4 16
     [RElement.scalar DataType.Vec2f 4 8, RElement.scalar DataType.Vec2f 16 8])]

/-- C6 counterexample: for `declUVec2Arr` the resolved array element stores
`sizeInBytes = 16` (stride 8 × count 2), but its last slot ends at 24 while
the array starts at 4, so `(last slot offset + last slot size) − own offset`
is 20, not 16.  (For an array of structs the stored size is even 0, cf. C3.)
So the invariant claimed for "every resolved Struct or Array element" fails
for arrays. -/
theorem claim6_counterexample :
    CreateLayout declUVec2Arr 0 = some declUVec2ArrResolved ∧
    rangeEnd (RElement.scalar DataType.Vec2f 16 8) - 4 = 20 ∧
    (16 : Nat) ≠ 20 := by
  refine ⟨?_, rfl, by decide⟩
  simp [declUVec2Arr, declUVec2ArrResolved, CreateLayout, copyByType, elementTypeOf,
    rawElementOfType, GetCorrectOffset, CrossesBoundary, CalculateBoundaryOffset,
    DataTypeSizeInBytes, RElement.GetOffset, RElement.GetSizeInBytes, List.range_succ]

/-- The declaration of the repo's own final "Struct test"
(`src/DynamicSSBO.Test.hpp` lines 408-430): a UInt32 followed by a struct
containing a single UInt32. -/
def C7decl : List (String × RawElement) :=
  [("u", RawElement.scalar DataType.UInt32),
   ("s", RawElement.structE [("x", RawElement.scalar DataType.UInt32)])]

/-- C7 counterexample: the struct of `C7decl` resolves to offset 4 (exactly
what the repo's own test expects), and 4 is not a multiple of 16 — resolved
structs do NOT always start on a 16-byte boundary; §4.3's rule only aligns an
element that would cross a boundary. -/
theorem claim7_counterexample :
    CreateLayout C7decl 0 =
      some [("u", RElement.scalar DataType.UInt32 0 4),
            ("s", RElement.structE 4 4 [("x", RElement.scalar DataType.UInt32 4 4)])] ∧
    (RElement.structE 4 4 [("x", RElement.scalar DataType.UInt32 4 4)]).GetOffset % 16 ≠ 0 := by
  refine ⟨?_, by decide⟩
  simp [C7decl, CreateLayout, copyByType, elementTypeOf, rawElementOfType,
    GetCorrectOffset, CrossesBoundary, CalculateBoundaryOffset, DataTypeSizeInBytes,
    RElement.GetOffset, RElement.GetSizeInBytes, List.range_succ]

/-- The declaration of the repo's test at `src/DynamicSSBO.Test.hpp` lines
370-404: an array of three structs each shaped `{UInt32, UInt32, UInt32}`
(12 bytes). -/
def C1declA : List (String × RawElement) :=
  [("arr", RawElement.arrayE DataType.Struct 3
    [("x", RawElement.scalar DataType.UInt32),
     ("y", RawElement.scalar DataType.UInt32),
     ("z", RawElement.scalar DataType.UInt32)])]

/-- The resolved slots of `C1declA`: 12-byte structs at offsets 0, 16, 32 —
each interior slot is re-aligned to a 16-byte boundary, exactly as the repo's
test expects (`i * 16`). -/
def C1slotsA : List RElement :=
  [RElement.structE 0 12
     [("x", RElement.scalar DataType.UInt32 0 4),
      ("y", RElement.scalar DataType.UInt32 4 4),
      ("z", RElement.scalar DataType.UInt32 8 4)],
   RElement.structE 16 12
     [("x", RElement.scalar DataType.UInt32 16 4),
      ("y", RElement.scalar DataType.UInt32 20 4),
      ("z", RElement.scalar DataType.UInt32 24 4)],
   RElement.structE 32 12
     [("x", RElement.scalar DataType.UInt32 32 4),
      ("y", RElement.scalar DataType.UInt32 36 4),
      ("z", RElement.scalar DataType.UInt32 40 4)]]

/-- C1 counterexample, refuting both halves of the claim.
Array of structs: for `C1declA` slot 1 starts at 16, not at slot 0's end 12 —
slots do NOT pack back-to-back (the repo's own test expects `i * 16`).
Array of scalars: for `declUVec2Arr` (first slot at 4, stride 8) slot 1
starts at 16, not at `firstSlotOffset + 1 * stride = 12` — interior slots ARE
boundary-checked, not only the first. -/
theorem claim1_counterexample :
    (CreateLayout C1declA 0).map (List.map Prod.snd) = some [RElement.arrayE 0 0 C1slotsA] ∧
    C1slotsA[1]?.map RElement.GetOffset = some 16 ∧
    C1slotsA[0]?.map rangeEnd = some 12 ∧
    (16 : Nat) ≠ 12 ∧
    CreateLayout declUVec2Arr 0 = some declUVec2ArrResolved ∧
    (RElement.scalar DataType.Vec2f 16 8).GetOffset = 16 ∧
    (RElement.scalar DataType.Vec2f 4 8).GetOffset + 8 = 12 := by
  refine ⟨?_, rfl, rfl, by decide, ?_, rfl, rfl⟩ <;>
    simp [C1declA, C1slotsA, declUVec2Arr, declUVec2ArrResolved, CreateLayout, copyByType,
      elementTypeOf, rawElementOfType, GetCorrectOffset, CrossesBoundary,
      CalculateBoundaryOffset, DataTypeSizeInBytes, RElement.GetOffset,
      RElement.GetSizeInBytes, List.range_succ]

theorem getCorrectOffset_eq (c s : Nat) :
    GetCorrectOffset c s =
      if (16 - c % 16) % 16 < s then c + (16 - c % 16) % 16 else c := by
  unfold GetCorrectOffset CrossesBoundary CalculateBoundaryOffset
  split <;> split <;> simp_all

theorem getCorrectOffset_ge (c s : Nat) : c ≤ GetCorrectOffset c s := by
  rw [getCorrectOffset_eq]
  split <;> omega

theorem getCorrectOffset_aligned_of_big (c s : Nat) (h : 16 ≤ s) :
    GetCorrectOffset c s % 16 = 0 := by
  rw [getCorrectOffset_eq]
  split <;> omega

theorem getCorrectOffset_shift (c s k : Nat) :
    GetCorrectOffset (c + 16 * k) s = GetCorrectOffset c s + 16 * k := by
  rw [getCorrectOffset_eq, getCorrectOffset_eq]
  have h : (c + 16 * k) % 16 = c % 16 := by omega
  rw [h]
  split <;> omega

theorem getCorrectOffset_eq_self (c s : Nat) (h : c % 16 + s ≤ 16 ∨ c % 16 = 0) :
    GetCorrectOffset c s = c := by
  rw [getCorrectOffset_eq]
  split <;> omega

/-- All elements of a raw list are scalars with a defined size (the shape of
every raw layout that `CreateLayout` can successfully resolve after the
by-type-tag copy). -/
def allScalarSized (l : List (String × RawElement)) : Prop :=
  ∀ p ∈ l, ∃ t s, p.2 = RawElement.scalar t ∧ DataTypeSizeInBytes t = some s

/-- One of the three shapes `rawElementOfType` (and hence `copyByType`) can
produce: a scalar, a fresh empty struct, or a fresh untyped array. -/
def copyShaped : RawElement → Prop
  | .scalar _ => True
  | .structE ms => ms = []
  | .arrayE t n proto => t = DataType.None ∧ n = 0 ∧ proto = []

theorem copyShaped_rawElementOfType (t : DataType) : copyShaped (rawElementOfType t) := by
  cases t <;> simp [rawElementOfType, copyShaped]

theorem copyShaped_copyByType (e : RawElement) : copyShaped (copyByType e) := by
  unfold copyByType
  exact copyShaped_rawElementOfType _

theorem rawElementOfType_scalar_inj {t t' : DataType}
    (h : rawElementOfType t = RawElement.scalar t') : t' = t := by
  cases t <;> simp_all [rawElementOfType]

/-- Proof-internal closed form of `CreateLayout` on all-scalar raw lists
(what every recursive `CreateLayout` call on a copied raw layout computes):
each scalar is placed at `GetCorrectOffset cursor size` and the cursor
advances past it. -/
def scalarLayout : List (String × RawElement) → Nat → List (String × RElement)
  | [], _ => []
  | (name, RawElement.scalar t) :: rest, c =>
    (name, RElement.scalar t (GetCorrectOffset c ((DataTypeSizeInBytes t).getD 0))
       ((DataTypeSizeInBytes t).getD 0))
      :: scalarLayout rest
          (GetCorrectOffset c ((DataTypeSizeInBytes t).getD 0) + (DataTypeSizeInBytes t).getD 0)
  | _ :: _, _ => []

/-- The final cursor of `scalarLayout`. -/
def scalarFinal : List (String × RawElement) → Nat → Nat
  | [], c => c
  | (_, RawElement.scalar t) :: rest, c =>
    scalarFinal rest
      (GetCorrectOffset c ((DataTypeSizeInBytes t).getD 0) + (DataTypeSizeInBytes t).getD 0)
  | _ :: _, c => c

/-- Sum of the scalar sizes of an all-scalar raw list. -/
def sumSizes : List (String × RawElement) → Nat
  | [] => 0
  | (_, RawElement.scalar t) :: rest => (DataTypeSizeInBytes t).getD 0 + sumSizes rest
  | _ :: _ => 0

/-- Characterization of successful `CreateLayout` runs on copy-shaped raw
lists: all elements must be sized scalars (an empty fresh struct makes the
resolver read the last element of an empty list; a fresh untyped array makes
it call `DataTypeSizeInBytes(None)`) and the result is `scalarLayout`. -/
theorem createLayout_copyShaped {l : List (String × RawElement)} :
    ∀ {c : Nat} {res : List (String × RElement)},
    (∀ p ∈ l, copyShaped p.2) → CreateLayout l c = some res →
    allScalarSized l ∧ res = scalarLayout l c := by
  induction l with
  | nil =>
      intro c res _ h
      simp only [CreateLayout] at h
      cases h
      exact ⟨by simp [allScalarSized], rfl⟩
  | cons p rest ih =>
      intro c res hcs h
      obtain ⟨nm, e⟩ := p
      have hhead : copyShaped e := hcs (nm, e) (List.mem_cons_self _ _)
      cases e with
      | scalar t =>
          simp only [CreateLayout] at h
          cases hsz : DataTypeSizeInBytes t with
          | none => rw [hsz] at h; simp at h
          | some s =>
              rw [hsz] at h
              simp only at h
              cases hrest : CreateLayout rest (GetCorrectOffset c s + s) with
              | none => rw [hrest] at h; simp at h
              | some restRes =>
                  rw [hrest] at h
                  simp only [Option.some.injEq] at h
                  have htail := ih (fun q hq => hcs q (List.mem_cons_of_mem _ hq)) hrest
                  refine ⟨?_, ?_⟩
                  · intro q hq
                    rcases List.mem_cons.mp hq with hq1 | hq2
                    · exact ⟨t, s, by rw [hq1], hsz⟩
                    · exact htail.1 q hq2
                  · rw [← h, scalarLayout, hsz]
                    simp only [Option.getD_some]
                    rw [← htail.2]
      | structE ms =>
          have hms : ms = [] := hhead
          subst hms
          simp [CreateLayout] at h
      | arrayE t n proto =>
          obtain ⟨ht, hn, hp⟩ := hhead
          subst ht; subst hn; subst hp
          simp [CreateLayout, DataTypeSizeInBytes] at h

theorem scalarLayout_length {l : List (String × RawElement)} (hAll : allScalarSized l) :
    ∀ c, (scalarLayout l c).length = l.length := by
  induction l with
  | nil => intro c; rfl
  | cons p rest ih =>
      intro c
      obtain ⟨t, s, hp, _⟩ := hAll p (List.mem_cons_self _ _)
      obtain ⟨nm, e⟩ := p
      simp only at hp
      subst hp
      simp only [scalarLayout, List.length_cons]
      rw [ih (fun q hq => hAll q (List.mem_cons_of_mem _ hq))]

theorem scalarLayout_shapes {l : List (String × RawElement)} :
    ∀ {c : Nat}, ∀ p ∈ scalarLayout l c, ∃ t off s, p.2 = RElement.scalar t off s := by
  induction l with
  | nil => intro c p hp; simp [scalarLayout] at hp
  | cons q rest ih =>
      intro c p hp
      obtain ⟨nm, e⟩ := q
      cases e with
      | scalar t =>
          simp only [scalarLayout, List.mem_cons] at hp
          rcases hp with hp | hp
          · exact ⟨t, _, _, by rw [hp]⟩
          · exact ih p hp
      | structE ms => simp [scalarLayout] at hp
      | arrayE t n proto => simp [scalarLayout] at hp

theorem scalarLayout_const {l : List (String × RawElement)} {t : DataType}
    (hc : ∀ p ∈ l, p.2 = RawElement.scalar t) :
    ∀ {c : Nat}, ∀ p ∈ scalarLayout l c,
      ∃ off, p.2 = RElement.scalar t off ((DataTypeSizeInBytes t).getD 0) := by
  induction l with
  | nil => intro c p hp; simp [scalarLayout] at hp
  | cons q rest ih =>
      intro c p hp
      obtain ⟨nm, e⟩ := q
      have he : e = RawElement.scalar t := hc (nm, e) (List.mem_cons_self _ _)
      subst he
      simp only [scalarLayout, List.mem_cons] at hp
      rcases hp with hp | hp
      · exact ⟨_, by rw [hp]⟩
      · exact ih (fun q hq => hc q (List.mem_cons_of_mem _ hq)) p hp

theorem scalarFinal_shift (l : List (String × RawElement)) :
    ∀ (c k : Nat), scalarFinal l (c + 16 * k) = scalarFinal l c + 16 * k := by
  induction l with
  | nil => intro c k; rfl
  | cons q rest ih =>
      intro c k
      obtain ⟨nm, e⟩ := q
      cases e with
      | scalar t =>
          simp only [scalarFinal]
          rw [getCorrectOffset_shift]
          have : GetCorrectOffset c ((DataTypeSizeInBytes t).getD 0) + 16 * k +
              (DataTypeSizeInBytes t).getD 0 =
              GetCorrectOffset c ((DataTypeSizeInBytes t).getD 0) +
              (DataTypeSizeInBytes t).getD 0 + 16 * k := by omega
          rw [this, ih]
      | structE ms => rfl
      | arrayE t n proto => rfl

theorem scalarFinal_fit {l : List (String × RawElement)} :
    ∀ {c : Nat}, c % 16 + sumSizes l ≤ 16 → scalarFinal l c = c + sumSizes l := by
  induction l with
  | nil => intro c _; simp [scalarFinal, sumSizes]
  | cons q rest ih =>
      intro c hfit
      obtain ⟨nm, e⟩ := q
      cases e with
      | scalar t =>
          simp only [scalarFinal, sumSizes] at hfit ⊢
          have hself : GetCorrectOffset c ((DataTypeSizeInBytes t).getD 0) = c := by
            apply getCorrectOffset_eq_self
            omega
          rw [hself]
          have hmod : (c + (DataTypeSizeInBytes t).getD 0) % 16 + sumSizes rest ≤ 16 := by
            omega
          rw [ih hmod]
          omega
      | structE ms => simp [scalarFinal, sumSizes]
      | arrayE t n proto => simp [scalarFinal, sumSizes]

theorem scalarFinal_ge (l : List (String × RawElement)) :
    ∀ (c : Nat), c + sumSizes l ≤ scalarFinal l c := by
  induction l with
  | nil => intro c; simp [scalarFinal, sumSizes]
  | cons q rest ih =>
      intro c
      obtain ⟨nm, e⟩ := q
      cases e with
      | scalar t =>
          simp only [scalarFinal, sumSizes]
          have h1 := getCorrectOffset_ge c ((DataTypeSizeInBytes t).getD 0)
          have h2 := ih (GetCorrectOffset c ((DataTypeSizeInBytes t).getD 0) +
            (DataTypeSizeInBytes t).getD 0)
          omega
      | structE ms => simp [scalarFinal, sumSizes]
      | arrayE t n proto => simp [scalarFinal, sumSizes]

theorem getLast?_cons_ne {α : Type _} (a : α) {l : List α} (h : l ≠ []) :
    (a :: l).getLast? = l.getLast? := by
  cases l with
  | nil => exact absurd rfl h
  | cons b t => exact List.getLast?_cons_cons

theorem scalarLayout_getLast_rangeEnd {l : List (String × RawElement)}
    (hAll : allScalarSized l) (hne : l ≠ []) :
    ∀ (c : Nat), ∃ q, (scalarLayout l c).getLast? = some q ∧
      rangeEnd q.2 = scalarFinal l c := by
  induction l with
  | nil => exact absurd rfl hne
  | cons p rest ih =>
      intro c
      obtain ⟨t, s, hp, hs⟩ := hAll p (List.mem_cons_self _ _)
      obtain ⟨nm, e⟩ := p
      simp only at hp
      subst hp
      have hAllRest : allScalarSized rest := fun q hq => hAll q (List.mem_cons_of_mem _ hq)
      cases hrest : rest with
      | nil =>
          refine ⟨(nm, RElement.scalar t (GetCorrectOffset c ((DataTypeSizeInBytes t).getD 0))
            ((DataTypeSizeInBytes t).getD 0)), ?_, ?_⟩
          · simp [scalarLayout]
          · simp [rangeEnd, RElement.GetOffset, RElement.GetSizeInBytes, scalarFinal]
      | cons r rrest =>
          rw [← hrest]
          have hrne : rest ≠ [] := by rw [hrest]; simp
          obtain ⟨q, hq1, hq2⟩ := ih hAllRest hrne
            (GetCorrectOffset c ((DataTypeSizeInBytes t).getD 0) + (DataTypeSizeInBytes t).getD 0)
          refine ⟨q, ?_, ?_⟩
          · rw [scalarLayout, getLast?_cons_ne]
            · exact hq1
            · intro hemp
              have hlen := scalarLayout_length hAllRest
                (GetCorrectOffset c ((DataTypeSizeInBytes t).getD 0) + (DataTypeSizeInBytes t).getD 0)
              rw [hemp] at hlen
              simp only [List.length_nil] at hlen
              exact hrne (List.length_eq_zero.mp hlen.symm)
          · rw [hq2]
            rfl

theorem scalarFinal_translation (l : List (String × RawElement)) (c : Nat) :
    scalarFinal l (GetCorrectOffset c (scalarFinal l 0)) =
      GetCorrectOffset c (scalarFinal l 0) + scalarFinal l 0 := by
  have hge := scalarFinal_ge l 0
  rw [getCorrectOffset_eq]
  split
  · have halign : (c + (16 - c % 16) % 16) % 16 = 0 := by omega
    have hk : c + (16 - c % 16) % 16 = 0 + 16 * ((c + (16 - c % 16) % 16) / 16) := by omega
    rw [hk, scalarFinal_shift]
    omega
  · rename_i hnc
    rcases Nat.eq_zero_or_pos (c % 16) with hr | hr
    · have hS0 : scalarFinal l 0 = 0 := by omega
      have hsum : sumSizes l = 0 := by omega
      have := scalarFinal_fit (l := l) (c := c) (by omega)
      omega
    · have hsum16 : sumSizes l ≤ 16 := by omega
      have hS : scalarFinal l 0 = 0 + sumSizes l := scalarFinal_fit (by omega)
      have hc : scalarFinal l c = c + sumSizes l := scalarFinal_fit (by omega)
      omega

mutual

/-- The placement invariant established by `CreateLayout` for one resolved
element, relating the cursor `c` at which the resolver placed it to the
cursor `cf` with which the resolver continued:
* a scalar sits at `GetCorrectOffset c size` and the cursor passes it;
* a struct sits at `GetCorrectOffset c size`, is non-empty, has all-scalar
  members chained from its own offset, and — the two resolution passes
  agreeing — the continuation cursor is exactly `offset + size`;
* an array is either an array of scalars (placed at
  `GetCorrectOffset c stride`, stored size `stride * count`, slots all
  scalars of that stride chained from `c`) or an array of structs (stored
  offset and size both left at 0, non-empty struct-shaped slots chained
  from `c`). -/
def ElemOK (c : Nat) : RElement → Nat → Prop
  | .scalar _ off s, cf => off = GetCorrectOffset c s ∧ cf = off + s
  | .structE off size ms, cf =>
      ms ≠ [] ∧ off = GetCorrectOffset c size ∧ cf = off + size ∧
      (∀ p ∈ ms, ∃ t o s, p.2 = RElement.scalar t o s) ∧
      MembersOK off ms cf
  | .arrayE off size slots, cf =>
      (∃ t stride, DataTypeSizeInBytes t = some stride ∧ slots ≠ [] ∧
        off = GetCorrectOffset c stride ∧ size = stride * slots.length ∧
        (∀ e ∈ slots, ∃ o, e = RElement.scalar t o stride) ∧
        SlotsOK c slots cf)
      ∨ (off = 0 ∧ size = 0 ∧ slots ≠ [] ∧
        (∀ e ∈ slots, ∃ o sz ms, e = RElement.structE o sz ms) ∧
        SlotsOK c slots cf)

/-- `ElemOK` chained along an anonymous slot list. -/
def SlotsOK (c : Nat) : List RElement → Nat → Prop
  | [], cf => cf = c
  | e :: rest, cf => ∃ cm, ElemOK c e cm ∧ SlotsOK cm rest cf

/-- `ElemOK` chained along a named element list. -/
def MembersOK (c : Nat) : List (String × RElement) → Nat → Prop
  | [], cf => cf = c
  | p :: rest, cf => ∃ cm, ElemOK c p.2 cm ∧ MembersOK cm rest cf

end

theorem scalarLayout_chain (l : List (String × RawElement)) :
    ∀ (c : Nat), MembersOK c (scalarLayout l c) (scalarFinal l c) := by
  induction l with
  | nil => intro c; simp [scalarLayout, scalarFinal, MembersOK]
  | cons p rest ih =>
      intro c
      obtain ⟨nm, e⟩ := p
      cases e with
      | scalar t =>
          simp only [scalarLayout, scalarFinal, MembersOK]
          exact ⟨GetCorrectOffset c ((DataTypeSizeInBytes t).getD 0) +
              (DataTypeSizeInBytes t).getD 0,
            ⟨rfl, rfl⟩, ih _⟩
      | structE ms => simp [scalarLayout, scalarFinal, MembersOK]
      | arrayE t n proto => simp [scalarLayout, scalarFinal, MembersOK]

theorem membersOK_to_slotsOK {l : List (String × RElement)} :
    ∀ {c cf : Nat}, MembersOK c l cf → SlotsOK c (l.map Prod.snd) cf := by
  induction l with
  | nil => intro c cf h; exact h
  | cons p rest ih =>
      intro c cf h
      obtain ⟨cm, h1, h2⟩ := h
      exact ⟨cm, h1, ih h2⟩

/-- In a chained slot list whose elements are scalars or structs, the final
cursor is the stored range end of the last slot. -/
theorem slotsOK_last_cf {slots : List RElement} :
    ∀ {c cf : Nat}, SlotsOK c slots cf →
    (∀ e ∈ slots, (∃ t o s, e = RElement.scalar t o s) ∨
      (∃ o sz ms, e = RElement.structE o sz ms)) →
    ∀ {lastE : RElement}, slots.getLast? = some lastE → cf = rangeEnd lastE := by
  induction slots with
  | nil => intro c cf _ _ lastE h; simp at h
  | cons e rest ih =>
      intro c cf hok hshape lastE hlast
      obtain ⟨cm, h1, h2⟩ := hok
      by_cases hrne : rest = []
      · subst hrne
        have hsingle : ([e] : List RElement).getLast? = some e := rfl
        rw [hsingle, Option.some.injEq] at hlast
        subst hlast
        have hcf : cf = cm := h2
        rcases hshape e (List.mem_cons_self _ _) with ⟨t, o, s, he⟩ | ⟨o, sz, ms, he⟩
        · subst he
          simp only [ElemOK] at h1
          simp [rangeEnd, RElement.GetOffset, RElement.GetSizeInBytes]
          omega
        · subst he
          simp only [ElemOK] at h1
          obtain ⟨_, _, hcm, _, _⟩ := h1
          simp [rangeEnd, RElement.GetOffset, RElement.GetSizeInBytes]
          omega
      · rw [getLast?_cons_ne e hrne] at hlast
        exact ih h2 (fun x hx => hshape x (List.mem_cons_of_mem _ hx)) hlast

/-- Kinds correspond between a raw element and its resolved counterpart. -/
def kindMatches : RawElement → RElement → Prop
  | RawElement.scalar _, RElement.scalar _ _ _ => True
  | RawElement.structE _, RElement.structE _ _ _ => True
  | RawElement.arrayE _ _ _, RElement.arrayE _ _ _ => True
  | _, _ => False

theorem forall₂_mem_right {α β : Type _} {R : α → β → Prop} :
    ∀ {l : List α} {res : List β}, List.Forall₂ R l res → ∀ q ∈ res, ∃ p ∈ l, R p q := by
  intro l res h
  induction h with
  | nil => intro q hq; simp at hq
  | @cons a b l₁ l₂ hr hrest ih =>
      intro q hq
      rcases List.mem_cons.mp hq with rfl | hq2
      · exact ⟨a, List.mem_cons_self _ _, hr⟩
      · obtain ⟨p, hp, hR⟩ := ih q hq2
        exact ⟨p, List.mem_cons_of_mem _ hp, hR⟩

theorem mem_range_map_snd {n : Nat} {f : Nat → String} {e0 : RawElement} :
    ∀ p ∈ (List.range n).map (fun i => (f i, e0)), p.2 = e0 := by
  intro p hp
  obtain ⟨i, _, rfl⟩ := List.mem_map.mp hp
  rfl

/-- The master invariant of `CreateLayout`: a successful resolution produces
one resolved element per raw element of matching kind, and the resolved list
is a cursor chain satisfying `ElemOK` at every step. -/
theorem createLayout_master :
    ∀ (W : Nat) (l : List (String × RawElement)) (c : Nat) (res : List (String × RElement)),
    weightList l < W → CreateLayout l c = some res →
    List.Forall₂ (fun p q => kindMatches p.2 q.2) l res ∧ ∃ cf, MembersOK c res cf := by
  intro W
  induction W with
  | zero => intro l c res hw; omega
  | succ W ih =>
    intro l c res hw h
    cases l with
    | nil =>
        simp only [CreateLayout] at h
        cases h
        exact ⟨List.Forall₂.nil, c, rfl⟩
    | cons p rest =>
      obtain ⟨nm, e⟩ := p
      have hwrest : weightList rest < W := by
        have := weight_pos e
        simp only [weightList_cons] at hw
        omega
      cases e with
      | scalar t =>
          simp only [CreateLayout] at h
          cases hsz : DataTypeSizeInBytes t with
          | none => rw [hsz] at h; simp at h
          | some s =>
              rw [hsz] at h
              simp only at h
              cases hrest : CreateLayout rest (GetCorrectOffset c s + s) with
              | none => rw [hrest] at h; simp at h
              | some restRes =>
                  rw [hrest] at h
                  simp only [Option.some.injEq] at h
                  subst h
                  obtain ⟨hf, cf, hm⟩ := ih rest (GetCorrectOffset c s + s) restRes hwrest hrest
                  refine ⟨List.Forall₂.cons (by simp [kindMatches]) hf, cf,
                    GetCorrectOffset c s + s, ⟨rfl, rfl⟩, hm⟩
      | structE ms =>
          simp only [CreateLayout] at h
          cases hinit : CreateLayout (ms.map fun p => (p.1, copyByType p.2)) 0 with
          | none => rw [hinit] at h; simp at h
          | some init =>
            rw [hinit] at h
            simp only at h
            cases hlast : init.getLast? with
            | none => rw [hlast] at h; simp at h
            | some lastInit =>
              rw [hlast] at h
              simp only at h
              cases hfin : CreateLayout (ms.map fun p => (p.1, copyByType p.2))
                  (GetCorrectOffset c (lastInit.2.GetOffset + lastInit.2.GetSizeInBytes)) with
              | none => rw [hfin] at h; simp at h
              | some finL =>
                rw [hfin] at h
                simp only at h
                cases hlastF : finL.getLast? with
                | none => rw [hlastF] at h; simp at h
                | some lastFinal =>
                  rw [hlastF] at h
                  simp only at h
                  cases hrest : CreateLayout rest
                      (lastFinal.2.GetOffset + lastFinal.2.GetSizeInBytes) with
                  | none => rw [hrest] at h; simp at h
                  | some restRes =>
                    rw [hrest] at h
                    simp only [Option.some.injEq] at h
                    subst h
                    have hcs : ∀ q ∈ ms.map fun p => (p.1, copyByType p.2), copyShaped q.2 := by
                      intro q hq
                      obtain ⟨p0, _, rfl⟩ := List.mem_map.mp hq
                      exact copyShaped_copyByType p0.2
                    obtain ⟨hAll1, hscal1⟩ := createLayout_copyShaped hcs hinit
                    obtain ⟨hAll2, hscal2⟩ := createLayout_copyShaped hcs hfin
                    have hrawne : (ms.map fun p => (p.1, copyByType p.2)) ≠ [] := by
                      intro hraw
                      rw [hraw] at hscal1
                      simp [scalarLayout] at hscal1
                      rw [hscal1] at hlast
                      simp at hlast
                    have hfinne : finL ≠ [] := by
                      intro hh
                      rw [hh] at hlastF
                      simp at hlastF
                    obtain ⟨q0, hq0, hq0e⟩ := scalarLayout_getLast_rangeEnd hAll1 hrawne 0
                    rw [← hscal1, hlast] at hq0
                    rw [← Option.some.inj hq0] at hq0e
                    obtain ⟨q1, hq1, hq1e⟩ := scalarLayout_getLast_rangeEnd hAll2 hrawne
                      (GetCorrectOffset c (lastInit.2.GetOffset + lastInit.2.GetSizeInBytes))
                    rw [← hscal2, hlastF] at hq1
                    rw [← Option.some.inj hq1] at hq1e
                    have hS : lastInit.2.GetOffset + lastInit.2.GetSizeInBytes =
                        scalarFinal (ms.map fun p => (p.1, copyByType p.2)) 0 := hq0e
                    have htrans := scalarFinal_translation
                      (ms.map fun p => (p.1, copyByType p.2)) c
                    rw [← hS] at htrans
                    have hnext : lastFinal.2.GetOffset + lastFinal.2.GetSizeInBytes =
                        GetCorrectOffset c (lastInit.2.GetOffset + lastInit.2.GetSizeInBytes)
                          + (lastInit.2.GetOffset + lastInit.2.GetSizeInBytes) := by
                      have := hq1e
                      rw [htrans] at this
                      exact this
                    have hchain := scalarLayout_chain (ms.map fun p => (p.1, copyByType p.2))
                      (GetCorrectOffset c (lastInit.2.GetOffset + lastInit.2.GetSizeInBytes))
                    rw [← hscal2, htrans] at hchain
                    obtain ⟨hf, cf, hm⟩ := ih rest
                      (lastFinal.2.GetOffset + lastFinal.2.GetSizeInBytes) restRes hwrest hrest
                    refine ⟨List.Forall₂.cons (by simp [kindMatches]) hf, cf,
                      lastFinal.2.GetOffset + lastFinal.2.GetSizeInBytes, ?_, hm⟩
                    refine ⟨hfinne, rfl, hnext, ?_, ?_⟩
                    · intro q hq
                      rw [hscal2] at hq
                      exact scalarLayout_shapes q hq
                    · rw [hnext]
                      exact hchain
      | arrayE t n proto =>
          simp only [CreateLayout] at h
          by_cases ht : t = DataType.Struct
          · subst ht
            rw [if_pos rfl] at h
            cases hsl : CreateLayout ((List.range n).map fun i =>
                ("[" ++ toString i ++ "]",
                  RawElement.structE (proto.map fun p => (p.1, copyByType p.2)))) c with
            | none => rw [hsl] at h; simp at h
            | some slotsN =>
              rw [hsl] at h
              simp only at h
              cases hlastS : slotsN.getLast? with
              | none => rw [hlastS] at h; simp at h
              | some lastSlot =>
                rw [hlastS] at h
                simp only at h
                cases hrest : CreateLayout rest
                    (lastSlot.2.GetOffset + lastSlot.2.GetSizeInBytes) with
                | none => rw [hrest] at h; simp at h
                | some restRes =>
                  rw [hrest] at h
                  simp only [Option.some.injEq] at h
                  subst h
                  have hwsynth : weightList ((List.range n).map fun i =>
                      ("[" ++ toString i ++ "]",
                        RawElement.structE (proto.map fun p => (p.1, copyByType p.2)))) < W := by
                    have hd := dec_synth_struct DataType.Struct n proto rest
                      (fun i => "[" ++ toString i ++ "]")
                    simp only [weightList_cons] at hw
                    omega
                  obtain ⟨hfS, cfS, hmS⟩ := ih _ c slotsN hwsynth hsl
                  have hshape : ∀ q ∈ slotsN, ∃ o sz ms', q.2 = RElement.structE o sz ms' := by
                    intro q hq
                    obtain ⟨p0, hp0, hR⟩ := forall₂_mem_right hfS q hq
                    have hp0e := mem_range_map_snd p0 hp0
                    rw [hp0e] at hR
                    cases hq2 : q.2 with
                    | structE o sz ms' => exact ⟨o, sz, ms', rfl⟩
                    | scalar ty o s => rw [hq2] at hR; simp [kindMatches] at hR
                    | arrayE o s sl => rw [hq2] at hR; simp [kindMatches] at hR
                  have hsne : slotsN ≠ [] := by
                    intro hh
                    rw [hh] at hlastS
                    simp at hlastS
                  have hslots := membersOK_to_slotsOK hmS
                  have hcf : cfS = rangeEnd lastSlot.2 := by
                    apply slotsOK_last_cf hslots
                    · intro e he
                      obtain ⟨q, hq, rfl⟩ := List.mem_map.mp he
                      right
                      exact hshape q hq
                    · rw [List.getLast?_map, hlastS]
                      rfl
                  rw [hcf] at hslots
                  obtain ⟨hf, cf, hm⟩ := ih rest _ restRes hwrest hrest
                  refine ⟨List.Forall₂.cons (by simp [kindMatches]) hf, cf,
                    lastSlot.2.GetOffset + lastSlot.2.GetSizeInBytes, ?_, hm⟩
                  refine Or.inr ⟨rfl, rfl, by simpa using hsne, ?_, ?_⟩
                  · intro e he
                    obtain ⟨q, hq, rfl⟩ := List.mem_map.mp he
                    exact hshape q hq
                  · exact hslots
          · rw [if_neg ht] at h
            cases hsz : DataTypeSizeInBytes t with
            | none => rw [hsz] at h; simp at h
            | some stride =>
              rw [hsz] at h
              simp only at h
              cases hsl : CreateLayout ((List.range n).map fun i =>
                  ("[" ++ toString i ++ "]", rawElementOfType t)) c with
              | none => rw [hsl] at h; simp at h
              | some arrL =>
                rw [hsl] at h
                simp only at h
                cases hlastS : arrL.getLast? with
                | none => rw [hlastS] at h; simp at h
                | some lastSlot =>
                  rw [hlastS] at h
                  simp only at h
                  cases hrest : CreateLayout rest (lastSlot.2.GetOffset + stride) with
                  | none => rw [hrest] at h; simp at h
                  | some restRes =>
                    rw [hrest] at h
                    simp only [Option.some.injEq] at h
                    subst h
                    have hcsyn : ∀ q ∈ (List.range n).map fun i =>
                        ("[" ++ toString i ++ "]", rawElementOfType t), copyShaped q.2 := by
                      intro q hq
                      rw [mem_range_map_snd q hq]
                      exact copyShaped_rawElementOfType t
                    obtain ⟨hAllS, hscalS⟩ := createLayout_copyShaped hcsyn hsl
                    have hconst : ∀ q ∈ (List.range n).map fun i =>
                        ("[" ++ toString i ++ "]", rawElementOfType t),
                        q.2 = RawElement.scalar t := by
                      intro q hq
                      obtain ⟨t', s', hq2, _⟩ := hAllS q hq
                      have hq3 := mem_range_map_snd q hq
                      rw [hq3] at hq2 ⊢
                      rw [hq2, rawElementOfType_scalar_inj hq2]
                    have harrne : arrL ≠ [] := by
                      intro hh
                      rw [hh] at hlastS
                      simp at hlastS
                    have hsynne : ((List.range n).map fun i =>
                        ("[" ++ toString i ++ "]", rawElementOfType t)) ≠ [] := by
                      intro hh
                      rw [hh] at hscalS
                      simp [scalarLayout] at hscalS
                      exact harrne hscalS
                    have hlen : arrL.length = n := by
                      rw [hscalS, scalarLayout_length hAllS]
                      simp
                    have hgd : (DataTypeSizeInBytes t).getD 0 = stride := by
                      rw [hsz]
                      rfl
                    obtain ⟨q1, hq1, hq1e⟩ := scalarLayout_getLast_rangeEnd hAllS hsynne c
                    rw [← hscalS, hlastS] at hq1
                    rw [← Option.some.inj hq1] at hq1e
                    have hlmem : lastSlot ∈ arrL := List.mem_of_mem_getLast? hlastS
                    obtain ⟨o1, ho1⟩ := scalarLayout_const hconst lastSlot
                      (by rw [hscalS] at hlmem; exact hlmem)
                    have hfinal : scalarFinal ((List.range n).map fun i =>
                        ("[" ++ toString i ++ "]", rawElementOfType t)) c =
                        lastSlot.2.GetOffset + stride := by
                      rw [← hq1e, ho1, hgd]
                      simp [rangeEnd, RElement.GetOffset, RElement.GetSizeInBytes]
                    have hchain := scalarLayout_chain ((List.range n).map fun i =>
                        ("[" ++ toString i ++ "]", rawElementOfType t)) c
                    rw [← hscalS, hfinal] at hchain
                    obtain ⟨hf, cf, hm⟩ := ih rest _ restRes hwrest hrest
                    refine ⟨List.Forall₂.cons (by simp [kindMatches]) hf, cf,
                      lastSlot.2.GetOffset + stride, ?_, hm⟩
                    refine Or.inl ⟨t, stride, hsz, by simpa using harrne, rfl, ?_, ?_, ?_⟩
                    · rw [List.length_map, hlen]
                    · intro e he
                      obtain ⟨q, hq, rfl⟩ := List.mem_map.mp he
                      obtain ⟨o, ho⟩ := scalarLayout_const hconst q
                        (by rw [hscalS] at hq; exact hq)
                      rw [ho, hgd]
                      exact ⟨o, rfl⟩
                    · exact membersOK_to_slotsOK hchain

mutual

theorem elemOK_mono : ∀ (e : RElement) {c cf : Nat}, ElemOK c e cf → c ≤ cf
  | RElement.scalar t off s, c, cf, h => by
      obtain ⟨hoff, hcf⟩ := h
      have := getCorrectOffset_ge c s
      omega
  | RElement.structE off size ms, c, cf, h => by
      obtain ⟨_, hoff, hcf, _, _⟩ := h
      have := getCorrectOffset_ge c size
      omega
  | RElement.arrayE off size slots, c, cf, h => by
      rcases h with ⟨t, stride, _, _, _, _, _, hs⟩ | ⟨_, _, _, _, hs⟩ <;>
        exact slotsOK_mono slots hs

theorem slotsOK_mono : ∀ (l : List RElement) {c cf : Nat}, SlotsOK c l cf → c ≤ cf
  | [], c, cf, h => h.ge
  | e :: rest, c, cf, h => by
      obtain ⟨cm, h1, h2⟩ := h
      exact le_trans (elemOK_mono e h1) (slotsOK_mono rest h2)

end

theorem elemOK_rangeEnd_le (e : RElement) {c cf : Nat} (h : ElemOK c e cf) :
    rangeEnd e ≤ cf := by
  cases e with
  | scalar t off s =>
      obtain ⟨hoff, hcf⟩ := h
      simp [rangeEnd, RElement.GetOffset, RElement.GetSizeInBytes]
      omega
  | structE off size ms =>
      obtain ⟨_, hoff, hcf, _, _⟩ := h
      simp [rangeEnd, RElement.GetOffset, RElement.GetSizeInBytes]
      omega
  | arrayE off size slots =>
      rcases h with ⟨t, stride, hsz, hne, hoff, hsize, hshapes, hs⟩ | ⟨hoff, hsize, _, _, hs⟩
      · have hb : ∀ (sl : List RElement) (c0 cf0 : Nat), SlotsOK c0 sl cf0 →
            (∀ e0 ∈ sl, ∃ o, e0 = RElement.scalar t o stride) →
            (sl ≠ [] → GetCorrectOffset c0 stride + stride * sl.length ≤ cf0) ∧ c0 ≤ cf0 := by
          intro sl
          induction sl with
          | nil =>
              intro c0 cf0 h0 _
              exact ⟨fun hh => absurd rfl hh, h0.ge⟩
          | cons e0 rl ih =>
              intro c0 cf0 h0 hsh
              obtain ⟨cm, h1, h2⟩ := h0
              obtain ⟨o, ho⟩ := hsh e0 (List.mem_cons_self _ _)
              subst ho
              obtain ⟨hoff0, hcm⟩ := h1
              obtain ⟨ihb, ihm⟩ := ih cm cf0 h2 (fun x hx => hsh x (List.mem_cons_of_mem _ hx))
              constructor
              · intro _
                by_cases hrl : rl = []
                · subst hrl
                  have : cf0 = cm := h2
                  simp only [List.length_cons, List.length_nil]
                  omega
                · have hb2 := ihb hrl
                  have hge := getCorrectOffset_ge cm stride
                  simp only [List.length_cons]
                  have : GetCorrectOffset c0 stride + stride * (rl.length + 1) =
                      GetCorrectOffset c0 stride + stride + stride * rl.length := by ring
                  omega
              · have hge := getCorrectOffset_ge c0 stride
                omega
        obtain ⟨hb1, _⟩ := hb slots c cf hs hshapes
        have := hb1 hne
        simp only [rangeEnd, RElement.GetOffset, RElement.GetSizeInBytes]
        omega
      · subst hoff; subst hsize
        simp [rangeEnd, RElement.GetOffset, RElement.GetSizeInBytes]

theorem elemOK_off_ge (e : RElement) {c cf : Nat} (h : ElemOK c e cf) :
    c ≤ e.GetOffset ∨ e.GetSizeInBytes = 0 := by
  cases e with
  | scalar t off s =>
      obtain ⟨hoff, _⟩ := h
      left
      have := getCorrectOffset_ge c s
      simp [RElement.GetOffset]
      omega
  | structE off size ms =>
      obtain ⟨_, hoff, _, _, _⟩ := h
      left
      have := getCorrectOffset_ge c size
      simp [RElement.GetOffset]
      omega
  | arrayE off size slots =>
      rcases h with ⟨t, stride, _, _, hoff, _, _, _⟩ | ⟨_, hsize, _, _, _⟩
      · left
        have := getCorrectOffset_ge c stride
        simp [RElement.GetOffset]
        omega
      · right
        simp [RElement.GetSizeInBytes, *]

theorem slotsOK_mem_off : ∀ {slots : List RElement} {c cf : Nat}, SlotsOK c slots cf →
    ∀ b ∈ slots, c ≤ b.GetOffset ∨ b.GetSizeInBytes = 0 := by
  intro slots
  induction slots with
  | nil => intro c cf _ b hb; simp at hb
  | cons e rest ih =>
      intro c cf h b hb
      obtain ⟨cm, h1, h2⟩ := h
      rcases List.mem_cons.mp hb with rfl | hb2
      · exact elemOK_off_ge b h1
      · rcases ih h2 b hb2 with hle | hz
        · left
          exact le_trans (elemOK_mono e h1) hle
        · right
          exact hz

/-- Two stored byte ranges `[offset, offset + sizeInBytes)` share a byte. -/
def Overlap (e1 e2 : RElement) : Prop :=
  max e1.GetOffset e2.GetOffset < min (rangeEnd e1) (rangeEnd e2)

theorem slotsOK_pairwise : ∀ {slots : List RElement} {c cf : Nat}, SlotsOK c slots cf →
    List.Pairwise (fun a b => ¬ Overlap a b) slots := by
  intro slots
  induction slots with
  | nil => intro c cf _; exact List.Pairwise.nil
  | cons e rest ih =>
      intro c cf h
      obtain ⟨cm, h1, h2⟩ := h
      refine List.Pairwise.cons ?_ (ih h2)
      intro b hb hov
      have hre := elemOK_rangeEnd_le e h1
      have hbo := slotsOK_mem_off h2 b hb
      unfold Overlap at hov
      unfold rangeEnd at hov hre
      rcases hbo with hle | hz <;> omega

theorem membersOK_pairwise {l : List (String × RElement)} {c cf : Nat}
    (h : MembersOK c l cf) :
    List.Pairwise (fun a b => ¬ Overlap a.2 b.2) l := by
  have := slotsOK_pairwise (membersOK_to_slotsOK h)
  exact (List.pairwise_map.mp this)

theorem membersOK_mem_elemOK : ∀ {l : List (String × RElement)} {c cf : Nat},
    MembersOK c l cf → ∀ p ∈ l, ∃ c' cf', ElemOK c' p.2 cf' := by
  intro l
  induction l with
  | nil => intro c cf _ p hp; simp at hp
  | cons q rest ih =>
      intro c cf h p hp
      obtain ⟨cm, h1, h2⟩ := h
      rcases List.mem_cons.mp hp with rfl | hp2
      · exact ⟨c, cm, h1⟩
      · exact ih h2 p hp2

theorem slotsOK_mem_elemOK : ∀ {l : List RElement} {c cf : Nat},
    SlotsOK c l cf → ∀ e ∈ l, ∃ c' cf', ElemOK c' e cf' := by
  intro l
  induction l with
  | nil => intro c cf _ e he; simp at he
  | cons q rest ih =>
      intro c cf h e he
      obtain ⟨cm, h1, h2⟩ := h
      rcases List.mem_cons.mp he with rfl | he2
      · exact ⟨c, cm, h1⟩
      · exact ih h2 e he2

mutual

/-- At every scope inside a resolved element — a struct's member list or an
array's slot list — no two sibling byte ranges overlap. -/
def ScopesDisjoint : RElement → Prop
  | .scalar _ _ _ => True
  | .structE _ _ ms =>
      List.Pairwise (fun a b => ¬ Overlap a.2 b.2) ms ∧ MembersScopes ms
  | .arrayE _ _ slots =>
      List.Pairwise (fun a b => ¬ Overlap a b) slots ∧ SlotsScopes slots

def SlotsScopes : List RElement → Prop
  | [] => True
  | e :: rest => ScopesDisjoint e ∧ SlotsScopes rest

def MembersScopes : List (String × RElement) → Prop
  | [] => True
  | p :: rest => ScopesDisjoint p.2 ∧ MembersScopes rest

end

mutual

theorem elemOK_scopes : ∀ (e : RElement) {c cf : Nat}, ElemOK c e cf → ScopesDisjoint e
  | RElement.scalar t off s, c, cf, _ => trivial
  | RElement.structE off size ms, c, cf, h => by
      obtain ⟨_, _, _, _, hchain⟩ := h
      exact ⟨membersOK_pairwise hchain, membersOK_scopes ms hchain⟩
  | RElement.arrayE off size slots, c, cf, h => by
      rcases h with ⟨t, stride, _, _, _, _, _, hs⟩ | ⟨_, _, _, _, hs⟩ <;>
        exact ⟨slotsOK_pairwise hs, slotsOK_scopes slots hs⟩

theorem slotsOK_scopes : ∀ (l : List RElement) {c cf : Nat}, SlotsOK c l cf → SlotsScopes l
  | [], c, cf, _ => trivial
  | e :: rest, c, cf, h => by
      obtain ⟨cm, h1, h2⟩ := h
      exact ⟨elemOK_scopes e h1, slotsOK_scopes rest h2⟩

theorem membersOK_scopes : ∀ (l : List (String × RElement)) {c cf : Nat},
    MembersOK c l cf → MembersScopes l
  | [], c, cf, _ => trivial
  | p :: rest, c, cf, h => by
      obtain ⟨cm, h1, h2⟩ := h
      exact ⟨elemOK_scopes p.2 h1, membersOK_scopes rest h2⟩

end

theorem elemOK_struct_last {c cf off size : Nat} {ms : List (String × RElement)}
    (h : ElemOK c (RElement.structE off size ms) cf) :
    ∃ m, ms.getLast? = some m ∧ rangeEnd m.2 = off + size := by
  obtain ⟨hne, hoff, hcf, hshapes, hchain⟩ := h
  obtain ⟨m, hm⟩ := Option.isSome_iff_exists.mp (List.getLast?_isSome.mpr hne)
  refine ⟨m, hm, ?_⟩
  have hsh : ∀ e ∈ ms.map Prod.snd, (∃ t o s, e = RElement.scalar t o s) ∨
      (∃ o sz ms', e = RElement.structE o sz ms') := by
    intro e he
    obtain ⟨q, hq, rfl⟩ := List.mem_map.mp he
    obtain ⟨t, o, s, hqe⟩ := hshapes q hq
    exact Or.inl ⟨t, o, s, hqe⟩
  have hglm : (ms.map Prod.snd).getLast? = some m.2 := by
    rw [List.getLast?_map, hm]
    rfl
  have hcf2 := slotsOK_last_cf (membersOK_to_slotsOK hchain) hsh hglm
  omega

mutual

/-- C6's amended invariant: every resolved struct's stored size is exactly
its last member's range end minus its own offset (no trailing padding). -/
def StructSizesExact : RElement → Prop
  | .scalar _ _ _ => True
  | .structE off size ms =>
      (∃ m, ms.getLast? = some m ∧ rangeEnd m.2 = off + size) ∧ MembersSizes ms
  | .arrayE _ _ slots => SlotsSizes slots

def SlotsSizes : List RElement → Prop
  | [] => True
  | e :: rest => StructSizesExact e ∧ SlotsSizes rest

def MembersSizes : List (String × RElement) → Prop
  | [] => True
  | p :: rest => StructSizesExact p.2 ∧ MembersSizes rest

end

mutual

theorem elemOK_sizes : ∀ (e : RElement) {c cf : Nat}, ElemOK c e cf → StructSizesExact e
  | RElement.scalar t off s, _, _, _ => trivial
  | RElement.structE off size ms, c, cf, h => by
      obtain ⟨hne, hoff, hcf, hsh, hchain⟩ := h
      exact ⟨elemOK_struct_last ⟨hne, hoff, hcf, hsh, hchain⟩, membersOK_sizes ms hchain⟩
  | RElement.arrayE off size slots, c, cf, h => by
      rcases h with ⟨t, stride, _, _, _, _, _, hs⟩ | ⟨_, _, _, _, hs⟩ <;>
        exact slotsOK_sizes slots hs

theorem slotsOK_sizes : ∀ (l : List RElement) {c cf : Nat}, SlotsOK c l cf → SlotsSizes l
  | [], _, _, _ => trivial
  | e :: rest, c, cf, h => by
      obtain ⟨cm, h1, h2⟩ := h
      exact ⟨elemOK_sizes e h1, slotsOK_sizes rest h2⟩

theorem membersOK_sizes : ∀ (l : List (String × RElement)) {c cf : Nat},
    MembersOK c l cf → MembersSizes l
  | [], _, _, _ => trivial
  | p :: rest, c, cf, h => by
      obtain ⟨cm, h1, h2⟩ := h
      exact ⟨elemOK_sizes p.2 h1, membersOK_sizes rest h2⟩

end

mutual

/-- C7's amended invariant: every resolved struct whose computed size is at
least 16, and the first slot of every resolved array whose slot size is at
least 16, starts on a 16-byte boundary (smaller ones may sit unaligned when
they fit in the current 16-byte page). -/
def AlignedWhenBig : RElement → Prop
  | .scalar _ _ _ => True
  | .structE off size ms => (16 ≤ size → off % 16 = 0) ∧ MembersAligned ms
  | .arrayE _ _ slots =>
      (∀ e0, slots.head? = some e0 → 16 ≤ e0.GetSizeInBytes → e0.GetOffset % 16 = 0) ∧
      SlotsAligned slots

def SlotsAligned : List RElement → Prop
  | [] => True
  | e :: rest => AlignedWhenBig e ∧ SlotsAligned rest

def MembersAligned : List (String × RElement) → Prop
  | [] => True
  | p :: rest => AlignedWhenBig p.2 ∧ MembersAligned rest

end

mutual

theorem elemOK_aligned : ∀ (e : RElement) {c cf : Nat}, ElemOK c e cf → AlignedWhenBig e
  | RElement.scalar t off s, _, _, _ => trivial
  | RElement.structE off size ms, c, cf, h => by
      obtain ⟨_, hoff, _, _, hchain⟩ := h
      refine ⟨?_, membersOK_aligned ms hchain⟩
      intro hbig
      rw [hoff]
      exact getCorrectOffset_aligned_of_big c size hbig
  | RElement.arrayE off size slots, c, cf, h => by
      rcases h with ⟨t, stride, hsz, hne, hoff, hsize, hshapes, hs⟩ |
        ⟨hoff, hsize, hne, hshapes, hs⟩
      · refine ⟨?_, slotsOK_aligned slots hs⟩
        intro e0 he0 hbig
        cases slots with
        | nil => simp at he0
        | cons a rl =>
            have he0a : a = e0 := by
              rw [List.head?_cons, Option.some.injEq] at he0
              exact he0
            obtain ⟨cm, h1, _⟩ := hs
            obtain ⟨o, hoa⟩ := hshapes a (List.mem_cons_self _ _)
            rw [← he0a, hoa] at hbig ⊢
            rw [hoa] at h1
            obtain ⟨hoo, _⟩ := h1
            simp only [RElement.GetOffset, RElement.GetSizeInBytes] at hbig ⊢
            rw [hoo]
            exact getCorrectOffset_aligned_of_big c stride hbig
      · refine ⟨?_, slotsOK_aligned slots hs⟩
        intro e0 he0 hbig
        cases slots with
        | nil => simp at he0
        | cons a rl =>
            have he0a : a = e0 := by
              rw [List.head?_cons, Option.some.injEq] at he0
              exact he0
            obtain ⟨cm, h1, _⟩ := hs
            obtain ⟨o, sz, msa, hoa⟩ := hshapes a (List.mem_cons_self _ _)
            rw [← he0a, hoa] at hbig ⊢
            rw [hoa] at h1
            obtain ⟨_, hoo, _, _, _⟩ := h1
            simp only [RElement.GetOffset, RElement.GetSizeInBytes] at hbig ⊢
            rw [hoo]
            exact getCorrectOffset_aligned_of_big c sz hbig

theorem slotsOK_aligned : ∀ (l : List RElement) {c cf : Nat}, SlotsOK c l cf → SlotsAligned l
  | [], _, _, _ => trivial
  | e :: rest, c, cf, h => by
      obtain ⟨cm, h1, h2⟩ := h
      exact ⟨elemOK_aligned e h1, slotsOK_aligned rest h2⟩

theorem membersOK_aligned : ∀ (l : List (String × RElement)) {c cf : Nat},
    MembersOK c l cf → MembersAligned l
  | [], _, _, _ => trivial
  | p :: rest, c, cf, h => by
      obtain ⟨cm, h1, h2⟩ := h
      exact ⟨elemOK_aligned p.2 h1, membersOK_aligned rest h2⟩

end

theorem slotsOK_consecutive : ∀ {slots : List RElement} {c cf : Nat}, SlotsOK c slots cf →
    (∀ e ∈ slots, (∃ t o s, e = RElement.scalar t o s) ∨
      (∃ o sz ms, e = RElement.structE o sz ms)) →
    ∀ (i : Nat) (e1 e2 : RElement), slots[i]? = some e1 → slots[i + 1]? = some e2 →
      e2.GetOffset = GetCorrectOffset (rangeEnd e1) e2.GetSizeInBytes := by
  intro slots
  induction slots with
  | nil => intro c cf _ _ i e1 e2 h1 _; simp at h1
  | cons a rl ih =>
      intro c cf h hsh i e1 e2 h1 h2
      obtain ⟨cm, hA, hB⟩ := h
      cases i with
      | zero =>
          have he1 : a = e1 := by simpa using h1
          have h2' : rl[0]? = some e2 := by simpa using h2
          have hcm : cm = rangeEnd e1 := by
            rw [← he1] at *
            rcases hsh a (List.mem_cons_self _ _) with ⟨t, o, s, he⟩ | ⟨o, sz, ms, he⟩ <;>
              rw [he] at hA ⊢
            · obtain ⟨_, hc⟩ := hA
              simp only [rangeEnd, RElement.GetOffset, RElement.GetSizeInBytes]
              omega
            · obtain ⟨_, _, hc, _, _⟩ := hA
              simp only [rangeEnd, RElement.GetOffset, RElement.GetSizeInBytes]
              omega
          cases rl with
          | nil => simp at h2'
          | cons b rl2 =>
              have he2 : b = e2 := by simpa using h2'
              obtain ⟨cm2, hB1, _⟩ := hB
              subst he2
              rcases hsh b (List.mem_cons_of_mem _ (List.mem_cons_self _ _)) with
                ⟨t, o, s, he⟩ | ⟨o, sz, ms, he⟩ <;> subst he
              · obtain ⟨ho, _⟩ := hB1
                simp only [RElement.GetOffset, RElement.GetSizeInBytes]
                rw [ho, hcm]
              · obtain ⟨_, ho, _, _, _⟩ := hB1
                simp only [RElement.GetOffset, RElement.GetSizeInBytes]
                rw [ho, hcm]
      | succ j =>
          have h1' : rl[j]? = some e1 := by simpa using h1
          have h2' : rl[j + 1]? = some e2 := by simpa using h2
          exact ih hB (fun x hx => hsh x (List.mem_cons_of_mem _ hx)) j e1 e2 h1' h2'

mutual

/-- C1's amended invariant: inside every resolved array, slot `i + 1` is
placed at `GetCorrectOffset (end of slot i) (its own size)` — every slot is
boundary-checked, not only the first — and for an array of scalars (stored
size non-zero) the first slot starts exactly at the array's own offset. -/
def SlotChainOK : RElement → Prop
  | .scalar _ _ _ => True
  | .structE _ _ ms => MembersChain ms
  | .arrayE off size slots =>
      (∀ (i : Nat) (e1 e2 : RElement), slots[i]? = some e1 → slots[i + 1]? = some e2 →
        e2.GetOffset = GetCorrectOffset (rangeEnd e1) e2.GetSizeInBytes) ∧
      (size ≠ 0 → ∀ e0, slots.head? = some e0 → e0.GetOffset = off) ∧
      SlotsChain slots

def SlotsChain : List RElement → Prop
  | [] => True
  | e :: rest => SlotChainOK e ∧ SlotsChain rest

def MembersChain : List (String × RElement) → Prop
  | [] => True
  | p :: rest => SlotChainOK p.2 ∧ MembersChain rest

end

mutual

theorem elemOK_chain : ∀ (e : RElement) {c cf : Nat}, ElemOK c e cf → SlotChainOK e
  | RElement.scalar t off s, _, _, _ => trivial
  | RElement.structE off size ms, c, cf, h => by
      obtain ⟨_, _, _, _, hchain⟩ := h
      exact membersOK_chain ms hchain
  | RElement.arrayE off size slots, c, cf, h => by
      rcases h with ⟨t, stride, hsz, hne, hoff, hsize, hshapes, hs⟩ |
        ⟨hoff, hsize, hne, hshapes, hs⟩
      · refine ⟨?_, ?_, slotsOK_chain slots hs⟩
        · apply slotsOK_consecutive hs
          intro e he
          obtain ⟨o, ho⟩ := hshapes e he
          exact Or.inl ⟨t, o, stride, ho⟩
        · intro _ e0 he0
          cases slots with
          | nil => simp at he0
          | cons a rl =>
              have he0a : a = e0 := by
                rw [List.head?_cons, Option.some.injEq] at he0
                exact he0
              obtain ⟨cm, h1, _⟩ := hs
              obtain ⟨o, hoa⟩ := hshapes a (List.mem_cons_self _ _)
              rw [← he0a, hoa]
              rw [hoa] at h1
              obtain ⟨hoo, _⟩ := h1
              simp only [RElement.GetOffset]
              rw [hoo, hoff]
      · refine ⟨?_, ?_, slotsOK_chain slots hs⟩
        · apply slotsOK_consecutive hs
          intro e he
          obtain ⟨o, sz, ms', ho⟩ := hshapes e he
          exact Or.inr ⟨o, sz, ms', ho⟩
        · intro hsz0
          exact absurd hsize hsz0

theorem slotsOK_chain : ∀ (l : List RElement) {c cf : Nat}, SlotsOK c l cf → SlotsChain l
  | [], _, _, _ => trivial
  | e :: rest, c, cf, h => by
      obtain ⟨cm, h1, h2⟩ := h
      exact ⟨elemOK_chain e h1, slotsOK_chain rest h2⟩

theorem membersOK_chain : ∀ (l : List (String × RElement)) {c cf : Nat},
    MembersOK c l cf → MembersChain l
  | [], _, _, _ => trivial
  | p :: rest, c, cf, h => by
      obtain ⟨cm, h1, h2⟩ := h
      exact ⟨elemOK_chain p.2 h1, membersOK_chain rest h2⟩

end

/-- The resolved form of `C7decl`. -/
def C7resolved : List (String × RElement) :=
  [("u", RElement.scalar DataType.UInt32 0 4),
   ("s", RElement.structE 4 4 [("x", RElement.scalar DataType.UInt32 4 4)])]

/-- C1 amended: for every declaration whose resolution succeeds, inside every
resolved array EVERY slot is boundary-checked: slot `i + 1` starts at
`GetCorrectOffset (end of slot i) (its own size)` (so slots are consecutive
exactly when no slot would straddle a 16-byte page), and for an array of
scalars the first slot starts at the array's own offset. -/
theorem claim1_slots_boundary_checked (decl : List (String × RawElement)) (c : Nat)
    (res : List (String × RElement)) (h : CreateLayout decl c = some res) :
    ∀ p ∈ res, SlotChainOK p.2 := by
  obtain ⟨_, cf, hm⟩ :=
    createLayout_master (weightList decl + 1) decl c res (Nat.lt_succ_self _) h
  intro p hp
  obtain ⟨c', cf', hE⟩ := membersOK_mem_elemOK hm p hp
  exact elemOK_chain p.2 hE

/-- Witness for C1 amended: the Vec2f-array declaration, where slot 1 indeed
sits at `GetCorrectOffset 12 8 = 16`, not at 12. -/
theorem claim1_witness :
    CreateLayout declUVec2Arr 0 = some declUVec2ArrResolved ∧
    ∀ p ∈ declUVec2ArrResolved, SlotChainOK p.2 := by
  have h : CreateLayout declUVec2Arr 0 = some declUVec2ArrResolved := by
    simp [declUVec2Arr, declUVec2ArrResolved, CreateLayout, copyByType, elementTypeOf,
      rawElementOfType, GetCorrectOffset, CrossesBoundary, CalculateBoundaryOffset,
      DataTypeSizeInBytes, RElement.GetOffset, RElement.GetSizeInBytes, List.range_succ]
  exact ⟨h, claim1_slots_boundary_checked declUVec2Arr 0 declUVec2ArrResolved h⟩

/-- C4 amended: for every non-empty declaration whose resolution succeeds,
the finalized layout's total size equals the last top-level element's stored
`offset + sizeInBytes`; when that last element is a struct, the stored size
is its computed padding-inclusive span (last member's end minus own offset).
When the last element is an array of structs, the stored fields are 0 (cf.
C3), so the total is 0 rather than the slots' range end. -/
theorem claim4_total_size_last_element (decl : List (String × RawElement))
    (res : List (String × RElement)) (lastp : String × RElement)
    (h : CreateLayout decl 0 = some res) (hlast : res.getLast? = some lastp) :
    SSBOLayoutTotalSize decl = some (lastp.2.GetOffset + lastp.2.GetSizeInBytes) ∧
    (∀ off size ms, lastp.2 = RElement.structE off size ms →
      ∃ m, ms.getLast? = some m ∧ rangeEnd m.2 = off + size) := by
  constructor
  · simp [SSBOLayoutTotalSize, SSBOLayoutCreate, h, hlast]
  · intro off size ms hsp
    obtain ⟨_, cf, hm⟩ :=
      createLayout_master (weightList decl + 1) decl 0 res (Nat.lt_succ_self _) h
    obtain ⟨c', cf', hE⟩ := membersOK_mem_elemOK hm lastp (List.mem_of_mem_getLast? hlast)
    rw [hsp] at hE
    exact elemOK_struct_last hE

/-- Witness for C4 amended: `C7decl` finalizes to total size 4 + 4 = 8, the
stored range end of its last element (the struct at offset 4 of size 4). -/
theorem claim4_witness :
    CreateLayout C7decl 0 = some C7resolved ∧
    SSBOLayoutTotalSize C7decl =
      some ((RElement.structE 4 4 [("x", RElement.scalar DataType.UInt32 4 4)]).GetOffset +
        (RElement.structE 4 4 [("x", RElement.scalar DataType.UInt32 4 4)]).GetSizeInBytes) := by
  have h : CreateLayout C7decl 0 = some C7resolved := by
    simp [C7decl, C7resolved, CreateLayout, copyByType, elementTypeOf, rawElementOfType,
      GetCorrectOffset, CrossesBoundary, CalculateBoundaryOffset, DataTypeSizeInBytes,
      RElement.GetOffset, RElement.GetSizeInBytes, List.range_succ]
  exact ⟨h, (claim4_total_size_last_element C7decl C7resolved
    ("s", RElement.structE 4 4 [("x", RElement.scalar DataType.UInt32 4 4)]) h rfl).1⟩

/-- C6 amended: for every declaration whose resolution succeeds, every
resolved STRUCT element (top level, nested-as-array-slot, anywhere) stores
`sizeInBytes` equal to exactly (last member's offset + last member's size) −
(own offset); the invariant fails for array elements (see the
counterexample), so it is restricted to structs. -/
theorem claim6_struct_size_exact (decl : List (String × RawElement)) (c : Nat)
    (res : List (String × RElement)) (h : CreateLayout decl c = some res) :
    ∀ p ∈ res, StructSizesExact p.2 := by
  obtain ⟨_, cf, hm⟩ :=
    createLayout_master (weightList decl + 1) decl c res (Nat.lt_succ_self _) h
  intro p hp
  obtain ⟨c', cf', hE⟩ := membersOK_mem_elemOK hm p hp
  exact elemOK_sizes p.2 hE

/-- Witness for C6 amended at `C7decl`: its struct stores size 4 = (4 + 4) − 4. -/
theorem claim6_witness :
    CreateLayout C7decl 0 = some C7resolved ∧ ∀ p ∈ C7resolved, StructSizesExact p.2 := by
  have h : CreateLayout C7decl 0 = some C7resolved := by
    simp [C7decl, C7resolved, CreateLayout, copyByType, elementTypeOf, rawElementOfType,
      GetCorrectOffset, CrossesBoundary, CalculateBoundaryOffset, DataTypeSizeInBytes,
      RElement.GetOffset, RElement.GetSizeInBytes, List.range_succ]
  exact ⟨h, claim6_struct_size_exact C7decl 0 C7resolved h⟩

/-- C7 amended: for every declaration whose resolution succeeds, every
resolved struct element whose computed size is at least 16 — and the first
slot of every resolved array whose slot size is at least 16 — starts at a
multiple of 16; smaller structs/first slots may start unaligned when they
fit inside the current 16-byte page (exactly the repo's own "Struct test"). -/
theorem claim7_alignment_conditional (decl : List (String × RawElement)) (c : Nat)
    (res : List (String × RElement)) (h : CreateLayout decl c = some res) :
    ∀ p ∈ res, AlignedWhenBig p.2 := by
  obtain ⟨_, cf, hm⟩ :=
    createLayout_master (weightList decl + 1) decl c res (Nat.lt_succ_self _) h
  intro p hp
  obtain ⟨c', cf', hE⟩ := membersOK_mem_elemOK hm p hp
  exact elemOK_aligned p.2 hE

/-- Witness for C7 amended at `C7decl`. -/
theorem claim7_witness :
    CreateLayout C7decl 0 = some C7resolved ∧ ∀ p ∈ C7resolved, AlignedWhenBig p.2 := by
  have h : CreateLayout C7decl 0 = some C7resolved := by
    simp [C7decl, C7resolved, CreateLayout, copyByType, elementTypeOf, rawElementOfType,
      GetCorrectOffset, CrossesBoundary, CalculateBoundaryOffset, DataTypeSizeInBytes,
      RElement.GetOffset, RElement.GetSizeInBytes, List.range_succ]
  exact ⟨h, claim7_alignment_conditional C7decl 0 C7resolved h⟩

/-- C8: for every declaration whose resolution succeeds, no two distinct
sibling elements in the same scope — the top level, one struct's member
list, or one array's slot list — have overlapping stored byte ranges
`[offset, offset + sizeInBytes)`. -/
theorem claim8_no_overlap (decl : List (String × RawElement)) (c : Nat)
    (res : List (String × RElement)) (h : CreateLayout decl c = some res) :
    List.Pairwise (fun a b => ¬ Overlap a.2 b.2) res ∧ ∀ p ∈ res, ScopesDisjoint p.2 := by
  obtain ⟨_, cf, hm⟩ :=
    createLayout_master (weightList decl + 1) decl c res (Nat.lt_succ_self _) h
  refine ⟨membersOK_pairwise hm, ?_⟩
  intro p hp
  obtain ⟨c', cf', hE⟩ := membersOK_mem_elemOK hm p hp
  exact elemOK_scopes p.2 hE

/-- Witness for C8 at `C7decl`. -/
theorem claim8_witness :
    CreateLayout C7decl 0 = some C7resolved ∧
    (List.Pairwise (fun a b => ¬ Overlap a.2 b.2) C7resolved ∧
      ∀ p ∈ C7resolved, ScopesDisjoint p.2) := by
  have h : CreateLayout C7decl 0 = some C7resolved := by
    simp [C7decl, C7resolved, CreateLayout, copyByType, elementTypeOf, rawElementOfType,
      GetCorrectOffset, CrossesBoundary, CalculateBoundaryOffset, DataTypeSizeInBytes,
      RElement.GetOffset, RElement.GetSizeInBytes, List.range_succ]
  exact ⟨h, claim8_no_overlap C7decl 0 C7resolved h⟩
